import Mathlib

/-!
Verification of the natural-language specification of the
`arrow-rs-object-store` repository against a shallow embedding of its two
source files, `src/aws/credential.rs` (AWS SigV4 request authorization)
and `src/local.rs` (local filesystem object store backend).

Byte strings are modeled as `List Nat` (each entry a byte value), text as
`String`, header maps as association lists in iteration order, and the
filesystem as explicit oracle functions.  SHA-256 and HMAC-SHA256 live in
the `crate::util` module, which is outside the provided sources; they are
taken as function parameters, so every theorem quantifies over them.
-/

namespace Spec2Proof

/-! ## Generic helpers -/

/-- UTF-8 bytes of a string, as natural numbers. -/
def str_bytes (s : String) : List Nat :=
  s.toUTF8.toList.map (fun b => b.toNat)

/-- Lowercase hex character for a value below 16. -/
def hexChar (n : Nat) : Char :=
  if n < 10 then Char.ofNat (48 + n) else Char.ofNat (87 + n % 16)

/-- Modelled from the spec: `util::hex_encode` (not under `src/`) renders a
byte slice as lowercase hexadecimal, two characters per byte. -/
def hex_encode (bytes : List Nat) : String :=
  String.mk (bytes.foldr (fun b acc => hexChar ((b / 16) % 16) :: hexChar (b % 16) :: acc) [])

/-- Modelled from the spec: `util::hex_digest` (not under `src/`) is the
lowercase hex of the SHA-256 digest of the input; the hash itself is a
parameter of the embedding. -/
def hex_digest (sha256 : List Nat → List Nat) (bytes : List Nat) : String :=
  hex_encode (sha256 bytes)

/-- Does `needle` occur as a contiguous run inside `hay`? -/
def has_infix_run (needle hay : List Char) : Bool :=
  if needle.isPrefixOf hay then true
  else
    match hay with
    | [] => false
    | _ :: t => has_infix_run needle t

/-- ASCII lowercasing of a single character. -/
def ascii_lower_char (c : Char) : Char :=
  if 64 < c.toNat ∧ c.toNat < 91 then Char.ofNat (c.toNat + 32) else c

/-- ASCII lowercasing of a string. -/
def ascii_lower (s : String) : String :=
  String.mk (s.toList.map ascii_lower_char)

/-! ## AWS SigV4: data model (`src/aws/credential.rs`) -/

/-- Constant from `src/aws/credential.rs` line 65: hex SHA-256 of the empty
string. -/
def EMPTY_SHA256_HASH : String :=
  "e3b0c44298fc1c149afbf4c8996fb92427ae41e4649b934ca495991b7852b855"

/-- Constant from `src/aws/credential.rs` line 66. -/
def UNSIGNED_PAYLOAD : String := "UNSIGNED-PAYLOAD"

/-- Constant from `src/aws/credential.rs` line 67. -/
def STREAMING_PAYLOAD : String := "STREAMING-AWS4-HMAC-SHA256-PAYLOAD"

/-- The `AwsCredential` record. -/
structure AwsCredential where
  key_id : String
  secret_key : String
  token : Option String
deriving DecidableEq

/-- The `Debug` rendering of `AwsCredential` (credential.rs lines 80-88):
`debug_struct` prints the key id verbatim while the secret key and the
session token are replaced by the literal `******`. -/
def debug_fmt (c : AwsCredential) : String :=
  "AwsCredential \x7b key_id: \"" ++ c.key_id ++ "\", secret_key: \"******\", token: " ++
    (match c.token with
     | none => "None"
     | some _ => "Some(\"******\")") ++ " \x7d"

/-- `AwsCredential::sign` (credential.rs lines 94-101): the SigV4 key
derivation chain followed by a final HMAC, hex encoded.  `hmac` is the
HMAC-SHA256 primitive from `crate::util`, taken as a parameter. -/
def credential_sign (hmac : List Nat → List Nat → List Nat) (c : AwsCredential)
    (to_sign date_ymd region service : String) : String :=
  let date_hmac := hmac (str_bytes ("AWS4" ++ c.secret_key)) (str_bytes date_ymd)
  let region_hmac := hmac date_hmac (str_bytes region)
  let service_hmac := hmac region_hmac (str_bytes service)
  let signing_hmac := hmac service_hmac (str_bytes "aws4_request")
  hex_encode (hmac signing_hmac (str_bytes to_sign))

/-- The observations `authorize` makes of an HTTP request body:
`is_empty()` and `as_bytes()` (which is `some` exactly when the body bytes
are materialized in memory, and `none` for a streaming body). -/
structure HttpBody where
  is_empty : Bool
  as_bytes : Option (List Nat)
deriving DecidableEq

/-- The parts of an `HttpRequest` and its parsed URL that `authorize`
reads.  `host` stands for the URL slice from `BeforeHost` to `AfterPort`,
`path` for `url.path()`, and `query` for the decoded query pairs in their
original order. -/
structure HttpRequest where
  method : String
  host : String
  path : String
  query : List (String × String)
  headers : List (String × String)
  body : HttpBody

/-- The `AwsAuthorizer` binding (credential.rs lines 108-116).  The chrono
date formatting is external to the sources, so the two formatted renderings
of the chosen date are carried directly. -/
structure AwsAuthorizer where
  credential : AwsCredential
  service : String
  region : String
  date_ymd : String
  date_iso : String
  token_header : Option String
  sign_payload : Bool
  request_payer : Bool

/-- `AwsAuthorizer::scope` (credential.rs lines 348-355). -/
def scope (a : AwsAuthorizer) : String :=
  a.date_ymd ++ "/" ++ a.region ++ "/" ++ a.service ++ "/aws4_request"

/-! ## Header map model -/

/-- `http::HeaderMap::insert` replaces every existing value of the name,
then stores the new one. -/
def header_insert (hs : List (String × String)) (name value : String) :
    List (String × String) :=
  hs.filter (fun kv => kv.1 ≠ name) ++ [(name, value)]

/-- Retrieve a header value by name. -/
def header_get (hs : List (String × String)) (name : String) : Option String :=
  (hs.find? (fun kv => kv.1 = name)).map (fun kv => kv.2)

/-- `http::HeaderName` normalizes names to lowercase on construction; a
header multimap always stores lowercased names.  This models building a
`HeaderMap` from raw name-value pairs. -/
def mk_header_map (l : List (String × String)) : List (String × String) :=
  l.map (fun kv => (ascii_lower kv.1, kv.2))

/-! ## Canonicalization (credential.rs lines 386-461) -/

/-- The three header names excluded from signing (credential.rs line 428). -/
def banned_headers : List String := ["authorization", "content-length", "user-agent"]

/-- The values pushed for one key while folding the header map into the
`BTreeMap<&str, Vec<&str>>` of `canonicalize_headers`: encounter order is
preserved by `entry(key).or_default().push(value)`. -/
def header_values (hm : List (String × String)) (name : String) : List String :=
  (hm.filter (fun kv => kv.1 = name)).map (fun kv => kv.2)

/-- The iteration order of the `BTreeMap` keys: each distinct key once, in
ascending byte order (for UTF-8 strings, byte order and code-point order
coincide, so `String` order is used). -/
def btree_keys (l : List String) : List String :=
  (l.insertionSort (fun a b => a ≤ b)).dedup

/-- `canonicalize_headers` (credential.rs lines 420-461): drop the banned
names, group the remaining values by name in a byte-ordered map, then emit
the signed-headers list (names joined by `;`) and the canonical block (one
`name:value1,value2` line per name, each value trimmed, every line ending
in a newline). -/
def canonicalize_headers (hm : List (String × String)) : String × String :=
  let filtered := hm.filter (fun kv => !(banned_headers.contains kv.1))
  let names := btree_keys (filtered.map (fun kv => kv.1))
  let signed_headers := String.intercalate ";" names
  let canonical_headers := String.join (names.map (fun n =>
    n ++ ":" ++ String.intercalate "," ((header_values filtered n).map (fun v => v.trim)) ++ "\n"))
  (signed_headers, canonical_headers)

/-- Modelled from the spec: `STRICT_ENCODE_SET` (defined in `src/aws/mod.rs`,
not under `src/`) keeps exactly the RFC-3986 unreserved bytes
`A-Z a-z 0-9 - . _ ~` and percent-encodes everything else. -/
def strict_keep (b : Nat) : Bool :=
  (65 ≤ b && b ≤ 90) || (97 ≤ b && b ≤ 122) || (48 ≤ b && b ≤ 57) ||
    b = 45 || b = 46 || b = 95 || b = 126

/-- Modelled from the spec: `STRICT_PATH_ENCODE_SET` is the strict set with
`/` (byte 47) additionally kept. -/
def strict_path_keep (b : Nat) : Bool :=
  strict_keep b || b = 47

/-- Uppercase hex character for a value below 16, as emitted by the
`percent-encoding` crate. -/
def hexCharUpper (n : Nat) : Char :=
  if n < 10 then Char.ofNat (48 + n) else Char.ofNat (55 + n % 16)

/-- `utf8_percent_encode`: every byte not kept by the set becomes `%XX`. -/
def utf8_percent_encode (keep : Nat → Bool) (s : String) : String :=
  String.mk ((str_bytes s).foldr
    (fun b acc =>
      if keep b then Char.ofNat b :: acc
      else '%' :: hexCharUpper ((b / 16) % 16) :: hexCharUpper (b % 16) :: acc) [])

/-- `canonicalize_query` (credential.rs lines 389-415): empty query gives
the empty string; otherwise the decoded pairs are sorted comparing keys
only and re-encoded under the strict set.  The source sorts with
`sort_unstable_by`, whose order on pairs with equal keys is unspecified;
this embedding fixes the stable refinement of that sort, and no theorem
below relies on the order of equal keys. -/
def canonicalize_query (query : List (String × String)) : String :=
  match query with
  | [] => ""
  | _ =>
    let sorted := query.insertionSort (fun a b => a.1 ≤ b.1)
    String.intercalate "&" (sorted.map (fun kv =>
      utf8_percent_encode strict_keep kv.1 ++ "=" ++ utf8_percent_encode strict_keep kv.2))

/-! ## Payload hash and authorization (credential.rs lines 173-246, 305-346) -/

/-- The payload-hash selection of `authorize` (credential.rs lines 191-203),
verbatim from the nested match. -/
def payload_digest (sha256 : List Nat → List Nat) (sign_payload : Bool)
    (pre_calculated_digest : Option (List Nat)) (body : HttpBody) : String :=
  match sign_payload with
  | false => UNSIGNED_PAYLOAD
  | true =>
    match pre_calculated_digest with
    | some digest => hex_encode digest
    | none =>
      match body.is_empty with
      | true => EMPTY_SHA256_HASH
      | false =>
        match body.as_bytes with
        | some bytes => hex_digest sha256 bytes
        | none => STREAMING_PAYLOAD

/-- `AwsAuthorizer::string_to_sign` (credential.rs lines 305-346): build the
canonical URI (service `s3` keeps the path verbatim, every other service
percent-encodes it once more under the strict path set), assemble the
six-line canonical request, hash it, and produce the string to sign. -/
def string_to_sign (sha256 : List Nat → List Nat) (a : AwsAuthorizer)
    (scope_str request_method path : String) (query : List (String × String))
    (canonical_headers signed_headers digest : String) : String :=
  let canonical_uri :=
    if a.service = "s3" then path
    else utf8_percent_encode strict_path_keep path
  let canonical_query := canonicalize_query query
  let canonical_request :=
    request_method ++ "\n" ++ canonical_uri ++ "\n" ++ canonical_query ++ "\n" ++
      canonical_headers ++ "\n" ++ signed_headers ++ "\n" ++ digest
  let hashed_canonical_request := hex_digest sha256 (str_bytes canonical_request)
  "AWS4-HMAC-SHA256" ++ "\n" ++ a.date_iso ++ "\n" ++ scope_str ++ "\n" ++
    hashed_canonical_request

/-- The header mutations of `AwsAuthorizer::authorize` before signing
(credential.rs lines 176-215): the optional token header, then `host`,
`x-amz-date`, `x-amz-content-sha256` (with the already chosen digest), and
optionally `x-amz-request-payer`. -/
def authorize_headers (a : AwsAuthorizer) (request : HttpRequest) (digest : String) :
    List (String × String) :=
  let hs := request.headers
  let hs :=
    match a.credential.token with
    | some t => header_insert hs (a.token_header.getD "x-amz-security-token") t
    | none => hs
  let hs := header_insert hs "host" request.host
  let hs := header_insert hs "x-amz-date" a.date_iso
  let hs := header_insert hs "x-amz-content-sha256" digest
  if a.request_payer then header_insert hs "x-amz-request-payer" "requester" else hs

/-- `AwsAuthorizer::authorize` (credential.rs lines 173-246): choose the
payload digest, set the headers, canonicalize, sign, and attach the
`authorization` header.  Returns the mutated request. -/
def authorize (sha256 : List Nat → List Nat) (hmac : List Nat → List Nat → List Nat)
    (a : AwsAuthorizer) (request : HttpRequest)
    (pre_calculated_digest : Option (List Nat)) : HttpRequest :=
  let digest := payload_digest sha256 a.sign_payload pre_calculated_digest request.body
  let hs := authorize_headers a request digest
  let canonicalized := canonicalize_headers hs
  let scope_str := scope a
  let sts := string_to_sign sha256 a scope_str request.method request.path request.query
    canonicalized.2 canonicalized.1 digest
  let signature := credential_sign hmac a.credential sts a.date_ymd a.region a.service
  let authorisation := "AWS4-HMAC-SHA256" ++ " Credential=" ++ a.credential.key_id ++ "/" ++
    scope_str ++ ", SignedHeaders=" ++ canonicalized.1 ++ ", Signature=" ++ signature
  { request with headers := header_insert hs "authorization" authorisation }

/-! ## Local filesystem backend (`src/local.rs`)

An object location (`Path`) is modeled as its list of non-empty segments;
the final segment is `List.getLast?`.  Filesystem paths are lists of
segments as well, with the configured root a segment-list prefix.  The
filesystem itself enters as oracle parameters (an entry per location, an
emptiness oracle for directory removal, an occupancy oracle for staging
names), since the real filesystem is external state. -/

/-- Error kinds of the local backend that the claims distinguish. -/
inductive ObjError where
  | notFound (path : List String)
  | invalidPath (path : List String)
  | invalidRange (requested length : Nat)
  | outOfRange (expected actual : Nat)
  | alreadyExists (path : List String)
  | other
deriving DecidableEq

/-- What a filesystem location resolves to. -/
inductive FsEntry where
  | file (contents : List Nat)
  | dir
  | missing
deriving DecidableEq

/-- `str::split_once` at the character `#`: splits at the first occurrence,
returning `none` when there is none. -/
def split_once_hash (s : String) : Option (String × String) :=
  let cs := s.toList
  if cs.contains '#' then
    some (String.mk (cs.takeWhile (fun c => c ≠ '#')),
      String.mk ((cs.dropWhile (fun c => c ≠ '#')).tail))
  else none

/-- `is_valid_file_path` (local.rs lines 306-317): a location is invalid
when the part of its final segment after the first `#` is non-empty and
consists only of ASCII digits (or when there is no final segment). -/
def is_valid_file_path (path : List String) : Bool :=
  match path.getLast? with
  | some p =>
    match split_once_hash p with
    | some pr =>
      if pr.2 = "" then true
      else !(pr.2.toList.all (fun c => c.isDigit))
    | none => true
  | none => false

/-- Written from the words of the spec, for comparison with
`is_valid_file_path`: the final segment matches the regex making
a pound sign followed only by digits at the end, that is, it ends in a
non-empty run of ASCII digits immediately preceded by `#`. -/
def spec_staging_regex (s : String) : Bool :=
  let rev := s.toList.reverse
  let digits := rev.takeWhile (fun c => c.isDigit)
  !digits.isEmpty && (rev.drop digits.length).head? = some '#'

/-- `LocalFileSystem::path_to_filesystem` (local.rs lines 250-273): reject
invalid locations with `InvalidPath`, otherwise map the location onto the
root.  The embedding keeps the location itself as the filesystem path. -/
def path_to_filesystem (location : List String) : Except ObjError (List String) :=
  if is_valid_file_path location then Except.ok location
  else Except.error (ObjError.invalidPath location)

/-- `open_file` (local.rs lines 948-969): a missing file is `NotFound`; an
existing directory is also reported as `NotFound` (the `!metadata.is_dir()`
check); a regular file is opened together with its metadata (its bytes in
the embedding). -/
def open_file (entry : FsEntry) (path : List String) : Except ObjError (List Nat) :=
  match entry with
  | FsEntry.missing => Except.error (ObjError.notFound path)
  | FsEntry.dir => Except.error (ObjError.notFound path)
  | FsEntry.file contents => Except.ok contents

/-- Two to the sixty-fourth, the modulus of `u64` arithmetic. -/
def U64 : Nat := 18446744073709551616

/-- `read_range` (local.rs lines 902-946): stat the file; error with
`InvalidRange` when `start` is at or past the stat length; truncate the end
to the stat length; read up to `to_read` bytes from the file as it is at
read time (`at_read`, which equals the stat contents unless the file
changed in between); error with `OutOfRange` when fewer bytes arrive.  The
subtraction producing `to_read` is `u64` arithmetic, hence the modulus. -/
def read_range (stat_len : Nat) (at_read : List Nat) (start stop : Nat) :
    Except ObjError (List Nat) :=
  if stat_len ≤ start then
    Except.error (ObjError.invalidRange start stat_len)
  else
    let to_read := (min stop stat_len + U64 - start) % U64
    let buf := (at_read.drop start).take to_read
    if buf.length ≠ to_read then Except.error (ObjError.outOfRange to_read buf.length)
    else Except.ok buf

/-- `LocalFileSystem::get_range` (local.rs lines 428-435): resolve the
location, open the file, then `read_range` on it (stat and read see the
same contents). -/
def local_get_range (fs : List String → FsEntry) (location : List String)
    (start stop : Nat) : Except ObjError (List Nat) := do
  let path ← path_to_filesystem location
  let contents ← open_file (fs path) path
  read_range contents.length contents start stop

/-- `LocalFileSystem::get_ranges` (local.rs lines 437-449): open once, then
read each range in turn. -/
def local_get_ranges (fs : List String → FsEntry) (location : List String)
    (ranges : List (Nat × Nat)) : Except ObjError (List (List Nat)) := do
  let path ← path_to_filesystem location
  let contents ← open_file (fs path) path
  ranges.mapM (fun r => read_range contents.length contents r.1 r.2)

/-- The metadata the local backend derives for an object. -/
structure ObjectMetaM where
  location : List String
  size : Nat
deriving DecidableEq

/-- The outcome of `get_opts`. -/
structure GetResultM where
  range : Nat × Nat
  meta : ObjectMetaM
  payload : List Nat
deriving DecidableEq

/-- `LocalFileSystem::get_opts` (local.rs lines 403-426): resolve, open,
convert metadata, check the caller preconditions, resolve the requested
range against the size.  The precondition check and the range resolution
live outside the provided sources (`GetOptions` in the core crate), so they
are parameters. -/
def local_get_opts (fs : List String → FsEntry)
    (check_preconditions : ObjectMetaM → Except ObjError Unit)
    (as_range : Nat → Except ObjError (Nat × Nat))
    (location : List String) : Except ObjError GetResultM := do
  let path ← path_to_filesystem location
  let contents ← open_file (fs path) path
  let meta : ObjectMetaM := { location := location, size := contents.length }
  let _u ← check_preconditions meta
  let range ← as_range meta.size
  Except.ok { range := range, meta := meta, payload := contents }

/-- Modelled from the spec: `get` is the `ObjectStore` trait default (not
under `src/`), delegating to `get_opts` with default options: no
preconditions and the full byte range. -/
def local_get (fs : List String → FsEntry) (location : List String) :
    Except ObjError GetResultM :=
  local_get_opts fs (fun _ => Except.ok ()) (fun size => Except.ok (0, size)) location

/-! ## Delete and automatic cleanup (local.rs lines 451-484) -/

/-- The chain `path.parent()`, `parent.parent()`, ... down to the
filesystem root `[]` inclusive, starting from `p` itself. -/
def ancestor_chain (p : List String) : List (List String) :=
  p :: (if _h : p = [] then [] else ancestor_chain p.dropLast)
termination_by p.length
decreasing_by
  have hp : 0 < p.length := List.length_pos.mpr _h
  simp [List.length_dropLast]
  omega

/-- The upward walk of `delete` (local.rs lines 468-476): starting from a
directory, remove it if it differs from the root and `remove_dir` succeeds
(`remove_ok`, which holds only for empty directories), then continue with
its parent; stop at the root, at the first failed removal, or once the
filesystem root is passed.  Returns the list of directories removed. -/
def cleanup_walk (root : List String) (remove_ok : List String → Bool)
    (loc : List String) : List (List String) :=
  if decide (loc ≠ root) && remove_ok loc then
    if _h : loc = [] then [loc]
    else loc :: cleanup_walk root remove_ok loc.dropLast
  else []
termination_by loc.length
decreasing_by
  have hp : 0 < loc.length := List.length_pos.mpr _h
  simp [List.length_dropLast]
  omega

/-- `LocalFileSystem::delete` (local.rs lines 451-484): resolve the
location, remove the file (errors mapped to `NotFound` or a generic error),
then, with `automatic_cleanup` set, walk parents upward.  The outcome of
`std::fs::remove_file` is the oracle `remove_file_error`; the returned list
of removed directories is the observable effect of the cleanup. -/
def local_delete (root : List String) (remove_ok : List String → Bool)
    (remove_file_error : Option Bool) (automatic_cleanup : Bool)
    (location : List String) : Except ObjError (List (List String)) := do
  let path ← path_to_filesystem location
  let full := root ++ path
  match remove_file_error with
  | some true => Except.error (ObjError.notFound full)
  | some false => Except.error ObjError.other
  | none =>
    if automatic_cleanup then Except.ok (cleanup_walk root remove_ok full.dropLast)
    else Except.ok []

/-! ## Staged uploads (local.rs lines 727-753) and copy (lines 549-579) -/

/-- `staged_upload_path` (local.rs lines 748-753): the sibling name
`{dest}#{suffix}`. -/
def staged_upload_path (dest suffix : String) : String :=
  dest ++ "#" ++ suffix

/-- The id search shared by `new_staged_upload` and the `copy` loop: try
`id`, and on an `AlreadyExists` collision (the occupancy oracle
`occupied`) retry with `id + 1`.  The loop in the source runs until a free
name is found; `fuel` bounds the search in the embedding. -/
def staged_suffix (occupied : Nat → Bool) (fuel id : Nat) : Nat :=
  match fuel with
  | 0 => id
  | n + 1 => if occupied id then staged_suffix occupied n (id + 1) else id

/-- `new_staged_upload` (local.rs lines 730-745): the staging path used by
`put_opts` and `put_multipart_opts`, with the id search starting at 1. -/
def new_staged_upload_path (occupied : Nat → Bool) (fuel : Nat) (dest : String) : String :=
  staged_upload_path dest (toString (staged_suffix occupied fuel 1))

/-- The staging path of `LocalFileSystem::copy` (local.rs lines 549-579):
the same `{dest}#{id}` scheme, but the loop there starts with
`let mut id = 0`. -/
def copy_staging_path (occupied : Nat → Bool) (fuel : Nat) (dest : String) : String :=
  staged_upload_path dest (toString (staged_suffix occupied fuel 0))

/-- The outcome of the write phase of `put_opts` after the staging file is
open; none of its error paths constructs an `InvalidPath`. -/
inductive WriteOutcome where
  | ok (e_tag : String)
  | alreadyExists
  | ioError
deriving DecidableEq

/-- The `PutResult` of a successful put. -/
structure PutResultM where
  e_tag : Option String
  version : Option String
deriving DecidableEq

/-- `LocalFileSystem::put_opts` (local.rs lines 321-387) restricted to the
path gate and the outcome of the staged write: the location is resolved
first (rejecting invalid paths), after which the staged write either
succeeds or fails with an error other than `InvalidPath`. -/
def local_put (write : WriteOutcome) (location : List String) :
    Except ObjError PutResultM := do
  let path ← path_to_filesystem location
  match write with
  | WriteOutcome.ok e_tag => Except.ok { e_tag := some e_tag, version := none }
  | WriteOutcome.alreadyExists => Except.error (ObjError.alreadyExists path)
  | WriteOutcome.ioError => Except.error ObjError.other

/-! ## Listing filter (local.rs lines 649-677 and 513-519) -/

/-- The per-entry filter of `list_with_maybe_offset`: non-file entries are
skipped, and file entries whose location fails `is_valid_file_path` (the
staged-upload names) are skipped.  Each walked entry is given by its
location and whether it is a regular file. -/
def list_stream_locations (entries : List (List String × Bool)) : List (List String) :=
  entries.filterMap (fun e =>
    if e.2 && is_valid_file_path e.1 then some e.1 else none)

/-- The per-entry handling of `list_with_delimiter` (local.rs lines
513-537): a non-directory entry whose location fails `is_valid_file_path`
is skipped (line 517); the surviving directories become common prefixes
while the surviving files become objects.  Each walked entry is given by
its location and its `is_directory` flag; the result is the list of object
locations. -/
def list_with_delimiter_objects (entries : List (List String × Bool)) :
    List (List String) :=
  entries.filterMap (fun e =>
    if !e.2 && !(is_valid_file_path e.1) then none
    else if e.2 then none
    else some e.1)

/-! ## Helper lemmas -/

theorem find?_filter_of_imp {α} (l : List α) (p q : α → Bool)
    (h : ∀ x, p x = true → q x = true) : (l.filter q).find? p = l.find? p := by
  induction l with
  | nil => rfl
  | cons a t ih =>
    by_cases hq : q a = true
    · rw [List.filter_cons_of_pos hq, List.find?_cons, List.find?_cons]
      cases hp : p a
      · exact ih
      · rfl
    · have hp : p a = false := by
        cases hpa : p a
        · rfl
        · exact absurd (h a hpa) hq
      rw [List.filter_cons_of_neg (by simp [hq]), List.find?_cons, hp]
      exact ih

theorem header_get_insert_self (hs : List (String × String)) (n v : String) :
    header_get (header_insert hs n v) n = some v := by
  unfold header_get header_insert
  rw [List.find?_append]
  have hnone : (hs.filter (fun kv => kv.1 ≠ n)).find? (fun kv => kv.1 = n) = none := by
    rw [List.find?_eq_none]
    intro x hx
    have := List.of_mem_filter hx
    simp only [decide_eq_true_eq] at this ⊢
    exact this
  rw [hnone]
  simp

theorem header_get_insert_other (hs : List (String × String)) (n v m : String)
    (hnm : m ≠ n) : header_get (header_insert hs n v) m = header_get hs m := by
  unfold header_get header_insert
  rw [List.find?_append]
  rw [find?_filter_of_imp hs (fun kv => kv.1 = m) (fun kv => kv.1 ≠ n)
    (by intro x hx; simp only [decide_eq_true_eq] at hx ⊢; rw [hx]; exact hnm)]
  cases hfind : hs.find? (fun kv => kv.1 = m)
  · simp [Option.orElse, hnm.symm]
  · simp [Option.orElse]

/-! ## Claim C9: Debug rendering of credentials -/

/-- C9 counterexample: the claim that the rendered string never contains
the secret key contents fails at a concrete credential whose secret key
coincides with its key id: the rendering of
`AwsCredential \x7b key_id: "abc", secret_key: "abc", token: None \x7d`
contains the secret key `abc` as a contiguous run. -/
theorem debug_fmt_contains_coinciding_secret :
    has_infix_run (String.toList "abc")
        (debug_fmt { key_id := "abc", secret_key := "abc", token := none }).toList = true
      ∧ (({ key_id := "abc", secret_key := "abc", token := none } : AwsCredential)).secret_key
          = "abc" := by
  constructor
  · rfl
  · rfl

/-- C9 amended: the Debug rendering of a credential depends only on the
key id and on whether a session token is present; in particular two
credentials differing only in `secret_key` and/or in the token contents
render identically, and the rendering equals that of the credential with
both secrets replaced by the literal `******`. -/
theorem debug_fmt_redaction (c₁ c₂ : AwsCredential)
    (hk : c₁.key_id = c₂.key_id) (ht : c₁.token.isSome = c₂.token.isSome) :
    debug_fmt c₁ = debug_fmt c₂
      ∧ debug_fmt c₁ = debug_fmt ⟨c₁.key_id, "******", c₁.token.map (fun _ => "******")⟩ := by
  constructor
  · unfold debug_fmt
    rw [hk]
    cases h₁ : c₁.token <;> cases h₂ : c₂.token <;> simp_all
  · unfold debug_fmt
    cases h₁ : c₁.token <;> simp

/-- C9 witness: two concrete credentials sharing a key id but with
different secrets and tokens render identically. -/
theorem debug_fmt_redaction_witness :
    debug_fmt { key_id := "k", secret_key := "hunter2", token := some "tok1" }
      = debug_fmt { key_id := "k", secret_key := "hunter3", token := some "tok2" } :=
  (debug_fmt_redaction
    { key_id := "k", secret_key := "hunter2", token := some "tok1" }
    { key_id := "k", secret_key := "hunter3", token := some "tok2" } rfl rfl).1

/-! ## Claim C7: staged upload naming -/

theorem staged_suffix_le (occupied : Nat → Bool) (fuel : Nat) :
    ∀ id, id ≤ staged_suffix occupied fuel id := by
  induction fuel with
  | zero => intro id; exact Nat.le_refl id
  | succ n ih =>
    intro id
    unfold staged_suffix
    by_cases h : occupied id = true
    · rw [if_pos h]
      exact Nat.le_trans (Nat.le_succ id) (ih (id + 1))
    · rw [if_neg h]

theorem staged_suffix_occupied_below (occupied : Nat → Bool) (fuel : Nat) :
    ∀ id j, id ≤ j → j < staged_suffix occupied fuel id → occupied j = true := by
  induction fuel with
  | zero =>
    intro id j h1 h2
    unfold staged_suffix at h2
    omega
  | succ n ih =>
    intro id j h1 h2
    unfold staged_suffix at h2
    by_cases h : occupied id = true
    · rw [if_pos h] at h2
      rcases Nat.eq_or_lt_of_le h1 with heq | hlt
      · rw [heq] at h; exact h
      · exact ih (id + 1) j hlt h2
    · rw [if_neg h] at h2
      omega

/-- C7 counterexample: with no name collisions at all, the staging file
chosen by `copy` is `a/b#0`, not the `a/b#1` that the claim (a positive
`n` starting at 1 for every staged write) requires. -/
theorem copy_staging_counterexample :
    copy_staging_path (fun _ => false) 1 "a/b" = "a/b#0"
      ∧ copy_staging_path (fun _ => false) 1 "a/b" ≠ staged_upload_path "a/b" "1" := by
  constructor
  · rfl
  · decide

/-- C7 amended: every staging file is named `dest#n`; for `put` and
`put_multipart` (`new_staged_upload`) the id search starts at 1, so `n` is
always positive, while for `copy` it starts at 0; in both, the id is
incremented by one on each `AlreadyExists` collision, so every id below
the chosen one was occupied. -/
theorem staged_upload_naming (occupied : Nat → Bool) (fuel id : Nat) (dest : String) :
    (1 ≤ staged_suffix occupied fuel 1
      ∧ new_staged_upload_path occupied fuel dest
          = staged_upload_path dest (toString (staged_suffix occupied fuel 1)))
  ∧ copy_staging_path occupied fuel dest
      = staged_upload_path dest (toString (staged_suffix occupied fuel 0))
  ∧ (occupied id = true →
      staged_suffix occupied (fuel + 1) id = staged_suffix occupied fuel (id + 1))
  ∧ (occupied id = false → staged_suffix occupied (fuel + 1) id = id)
  ∧ (∀ j, id ≤ j → j < staged_suffix occupied fuel id → occupied j = true) := by
  refine ⟨⟨staged_suffix_le occupied fuel 1, rfl⟩, rfl, ?_, ?_, ?_⟩
  · intro h
    rw [show staged_suffix occupied (fuel + 1) id
        = if occupied id = true then staged_suffix occupied fuel (id + 1) else id from rfl]
    rw [if_pos h]
  · intro h
    rw [show staged_suffix occupied (fuel + 1) id
        = if occupied id = true then staged_suffix occupied fuel (id + 1) else id from rfl]
    rw [if_neg (by simp [h])]
  · exact staged_suffix_occupied_below occupied fuel id

/-- C7 witness: with exactly the name `d#1` occupied, `put` stages at
`d#2` while `copy` stages at `d#0`. -/
theorem staged_upload_naming_witness :
    new_staged_upload_path (fun n => decide (n = 1)) 2 "d" = staged_upload_path "d" "2"
      ∧ copy_staging_path (fun n => decide (n = 1)) 2 "d" = staged_upload_path "d" "0"
      ∧ staged_suffix (fun n => decide (n = 1)) (1 + 1) 1
          = staged_suffix (fun n => decide (n = 1)) 1 2 := by
  refine ⟨?_, ?_, (staged_upload_naming (fun n => decide (n = 1)) 1 1 "d").2.2.1 (by decide)⟩
  · have h := (staged_upload_naming (fun n => decide (n = 1)) 2 1 "d").1.2
    rw [h]
    decide
  · have h := (staged_upload_naming (fun n => decide (n = 1)) 2 0 "d").2.1
    rw [h]
    decide

/-! ## Claim C4: S3 double-encoding exemption -/

/-- C4: the canonical URI placed on the second line of the canonical
request is the URL path verbatim when the service is `s3`, and the URL
path percent-encoded once more under the strict path set for every other
service. -/
theorem string_to_sign_canonical_uri (sha256 : List Nat → List Nat) (a : AwsAuthorizer)
    (scope_str m p : String) (q : List (String × String)) (ch sh dg : String) :
    (a.service = "s3" →
      string_to_sign sha256 a scope_str m p q ch sh dg
        = "AWS4-HMAC-SHA256" ++ "\n" ++ a.date_iso ++ "\n" ++ scope_str ++ "\n" ++
            hex_digest sha256 (str_bytes (m ++ "\n" ++ p ++ "\n" ++ canonicalize_query q
              ++ "\n" ++ ch ++ "\n" ++ sh ++ "\n" ++ dg)))
  ∧ (a.service ≠ "s3" →
      string_to_sign sha256 a scope_str m p q ch sh dg
        = "AWS4-HMAC-SHA256" ++ "\n" ++ a.date_iso ++ "\n" ++ scope_str ++ "\n" ++
            hex_digest sha256 (str_bytes (m ++ "\n" ++ utf8_percent_encode strict_path_keep p
              ++ "\n" ++ canonicalize_query q ++ "\n" ++ ch ++ "\n" ++ sh ++ "\n" ++ dg))) := by
  constructor
  · intro h
    simp [string_to_sign, h]
  · intro h
    simp [string_to_sign, h]

/-- C4 witness: for service `ec2` the path `/x y` is re-encoded before
entering the canonical request. -/
theorem string_to_sign_canonical_uri_witness :
    string_to_sign (fun _ => [171])
        ⟨⟨"k", "s", none⟩, "ec2", "r", "D", "DI", none, true, false⟩
        "sc" "GET" "/x y" [] "ch" "sh" "dg"
      = "AWS4-HMAC-SHA256" ++ "\n" ++ "DI" ++ "\n" ++ "sc" ++ "\n" ++
          hex_digest (fun _ => [171]) (str_bytes ("GET" ++ "\n"
            ++ utf8_percent_encode strict_path_keep "/x y"
            ++ "\n" ++ canonicalize_query [] ++ "\n" ++ "ch" ++ "\n" ++ "sh" ++ "\n" ++ "dg")) :=
  (string_to_sign_canonical_uri (fun _ => [171])
    ⟨⟨"k", "s", none⟩, "ec2", "r", "D", "DI", none, true, false⟩
    "sc" "GET" "/x y" [] "ch" "sh" "dg").2 (by decide)

/-! ## Claim C10: directories read as NotFound -/

/-- C10: a valid location that resolves to an existing directory makes
`get_opts` (and hence `get`), `get_range` and `get_ranges` fail with a
`NotFound` error, exactly as if no object existed there. -/
theorem local_get_dir_not_found (fs : List String → FsEntry) (loc : List String)
    (check_preconditions : ObjectMetaM → Except ObjError Unit)
    (as_range : Nat → Except ObjError (Nat × Nat))
    (start stop : Nat) (ranges : List (Nat × Nat))
    (hv : is_valid_file_path loc = true) (hd : fs loc = FsEntry.dir) :
    local_get_opts fs check_preconditions as_range loc = Except.error (ObjError.notFound loc)
  ∧ local_get fs loc = Except.error (ObjError.notFound loc)
  ∧ local_get_range fs loc start stop = Except.error (ObjError.notFound loc)
  ∧ local_get_ranges fs loc ranges = Except.error (ObjError.notFound loc) := by
  have hopen : open_file (fs loc) loc = Except.error (ObjError.notFound loc) := by
    rw [hd]; rfl
  have hpath : path_to_filesystem loc = Except.ok loc := by
    unfold path_to_filesystem
    rw [if_pos hv]
  refine ⟨?_, ?_, ?_, ?_⟩ <;>
    simp [local_get_opts, local_get, local_get_range, local_get_ranges,
      hpath, hopen, Bind.bind, Except.bind]

/-- C10 witness: at a concrete directory entry each read operation yields
`NotFound`. -/
theorem local_get_dir_not_found_witness :
    local_get (fun _ => FsEntry.dir) ["a"] = Except.error (ObjError.notFound ["a"])
      ∧ local_get_range (fun _ => FsEntry.dir) ["a"] 0 5
          = Except.error (ObjError.notFound ["a"]) :=
  ⟨(local_get_dir_not_found (fun _ => FsEntry.dir) ["a"] (fun _ => Except.ok ())
      (fun size => Except.ok (0, size)) 0 5 [] (by decide) rfl).2.1,
   (local_get_dir_not_found (fun _ => FsEntry.dir) ["a"] (fun _ => Except.ok ())
      (fun size => Except.ok (0, size)) 0 5 [] (by decide) rfl).2.2.1⟩

/-! ## Claim C6: range reads -/

/-- C6: for a file of the stat length, `read_range` rejects a start at or
past the length with `InvalidRange`; otherwise it truncates the end to the
length and returns exactly `min stop len - start` bytes from `start`; and
when the underlying read delivers fewer bytes than requested it fails with
`OutOfRange`.  `get_range` is the same computation after opening the
file. -/
theorem read_range_spec (contents at_read : List Nat) (start stop : Nat)
    (hstop : stop < U64) :
    (contents.length ≤ start →
      read_range contents.length at_read start stop
        = Except.error (ObjError.invalidRange start contents.length))
  ∧ (start < contents.length → start ≤ stop →
      read_range contents.length contents start stop
          = Except.ok ((contents.drop start).take (min stop contents.length - start))
        ∧ ((contents.drop start).take (min stop contents.length - start)).length
            = min stop contents.length - start)
  ∧ (start < contents.length → start ≤ stop →
      ((at_read.drop start).take (min stop contents.length - start)).length
          < min stop contents.length - start →
      read_range contents.length at_read start stop
        = Except.error (ObjError.outOfRange (min stop contents.length - start)
            ((at_read.drop start).take (min stop contents.length - start)).length))
  ∧ (∀ fs loc, is_valid_file_path loc = true → fs loc = FsEntry.file contents →
      local_get_range fs loc start stop = read_range contents.length contents start stop) := by
  refine ⟨?_, ?_, ?_, ?_⟩
  · intro h1
    unfold read_range
    rw [if_pos h1]
  · intro h1 h2
    have hm : (min stop contents.length + U64 - start) % U64
        = min stop contents.length - start := by
      simp only [U64] at hstop ⊢
      omega
    have hlen : ((contents.drop start).take (min stop contents.length - start)).length
        = min stop contents.length - start := by
      rw [List.length_take, List.length_drop]
      omega
    refine ⟨?_, hlen⟩
    unfold read_range
    rw [if_neg (by omega)]
    simp only [hm]
    rw [if_neg (by rw [hlen]; omega)]
  · intro h1 h2 h3
    have hm : (min stop contents.length + U64 - start) % U64
        = min stop contents.length - start := by
      simp only [U64] at hstop ⊢
      omega
    unfold read_range
    rw [if_neg (by omega)]
    simp only [hm]
    rw [if_pos (by omega)]
  · intro fs loc hv hf
    have hpath : path_to_filesystem loc = Except.ok loc := by
      unfold path_to_filesystem
      rw [if_pos hv]
    have hopen : open_file (fs loc) loc = Except.ok contents := by
      rw [hf]; rfl
    simp [local_get_range, hpath, hopen, Bind.bind, Except.bind]

/-- C6 witness: after putting 14 bytes, reading `100..200` is
`InvalidRange` while reading `0..100` returns the 14 bytes. -/
theorem read_range_spec_witness :
    read_range (List.replicate 14 7).length (List.replicate 14 7) 100 200
        = Except.error (ObjError.invalidRange 100 (List.replicate 14 7).length)
      ∧ read_range (List.replicate 14 7).length (List.replicate 14 7) 0 100
          = Except.ok (((List.replicate 14 7).drop 0).take
              (min 100 (List.replicate 14 7).length - 0)) :=
  ⟨(read_range_spec (List.replicate 14 7) (List.replicate 14 7) 100 200 (by decide)).1
      (by decide),
   ((read_range_spec (List.replicate 14 7) (List.replicate 14 7) 0 100 (by decide)).2.1
      (by decide) (by decide)).1⟩

/-! ## Claim C8: automatic cleanup bound -/

theorem cleanup_walk_root_eq (root : List String) (remove_ok : List String → Bool) :
    cleanup_walk root remove_ok root = [] := by
  unfold cleanup_walk
  rw [if_neg (by simp)]

theorem cleanup_walk_below (root : List String) (remove_ok : List String → Bool) :
    ∀ n loc, loc.length ≤ n → ∀ t, t ≠ [] → loc = root ++ t →
      ∀ d ∈ cleanup_walk root remove_ok loc, ∃ u, u ≠ [] ∧ d = root ++ u := by
  intro n
  induction n with
  | zero =>
    intro loc hlen t ht hloc d hd
    have : loc = [] := List.eq_nil_of_length_eq_zero (Nat.le_zero.mp hlen)
    rw [this] at hloc
    exact absurd (List.append_eq_nil.mp hloc.symm).2 ht
  | succ n ih =>
    intro loc hlen t ht hloc d hd
    rw [cleanup_walk] at hd
    by_cases hcond : (decide (loc ≠ root) && remove_ok loc) = true
    · rw [if_pos hcond] at hd
      have hlocne : loc ≠ [] := by
        rw [hloc]
        simp [ht]
      rw [dif_neg hlocne] at hd
      rcases List.mem_cons.mp hd with hdl | hdrec
      · exact ⟨t, ht, by rw [hdl, hloc]⟩
      · have hdrop : loc.dropLast = root ++ t.dropLast := by
          rw [hloc, List.dropLast_append_of_ne_nil root ht]
        by_cases htd : t.dropLast = []
        · rw [htd, List.append_nil] at hdrop
          rw [hdrop, cleanup_walk_root_eq] at hdrec
          exact absurd hdrec (List.not_mem_nil d)
        · have hlen2 : loc.dropLast.length ≤ n := by
            have := List.length_dropLast loc
            have hpos : 0 < loc.length := List.length_pos.mpr hlocne
            omega
          exact ih loc.dropLast hlen2 t.dropLast htd hdrop d hdrec
    · rw [if_neg hcond] at hd
      exact absurd hd (List.not_mem_nil d)

theorem cleanup_walk_takeWhile (root : List String) (remove_ok : List String → Bool) :
    ∀ n loc, loc.length ≤ n →
      cleanup_walk root remove_ok loc
        = (ancestor_chain loc).takeWhile (fun d => decide (d ≠ root) && remove_ok d) := by
  intro n
  induction n with
  | zero =>
    intro loc hlen
    have hnil : loc = [] := List.eq_nil_of_length_eq_zero (Nat.le_zero.mp hlen)
    subst hnil
    rw [cleanup_walk, ancestor_chain]
    by_cases hcond : (decide (([] : List String) ≠ root) && remove_ok []) = true
    · rw [if_pos hcond, dif_pos rfl, @List.takeWhile_cons_of_pos _ (fun d => decide (d ≠ root) && remove_ok d) _ _ hcond, dif_pos rfl]
      rfl
    · rw [if_neg hcond, @List.takeWhile_cons_of_neg _ (fun d => decide (d ≠ root) && remove_ok d) _ _ hcond]
  | succ n ih =>
    intro loc hlen
    rw [cleanup_walk, ancestor_chain]
    by_cases hcond : (decide (loc ≠ root) && remove_ok loc) = true
    · rw [if_pos hcond, @List.takeWhile_cons_of_pos _ (fun d => decide (d ≠ root) && remove_ok d) _ _ hcond]
      by_cases hnil : loc = []
      · rw [dif_pos hnil, dif_pos hnil]
        rfl
      · rw [dif_neg hnil, dif_neg hnil]
        have hlen2 : loc.dropLast.length ≤ n := by
          have := List.length_dropLast loc
          have hpos : 0 < loc.length := List.length_pos.mpr hnil
          omega
        rw [ih loc.dropLast hlen2]
    · rw [if_neg hcond, @List.takeWhile_cons_of_neg _ (fun d => decide (d ≠ root) && remove_ok d) _ _ hcond]

/-- C8: a `delete` with `automatic_cleanup` whose file removal succeeded
returns success regardless of how directory removals fare (cleanup
failures are not reported); every directory it removes lies strictly below
the configured root (so neither the root nor anything at or above it is
ever removed); and the removed directories are exactly the longest chain
of ancestors of the deleted file on which removal keeps succeeding, so the
walk stops at the first ancestor whose removal fails. -/
theorem delete_cleanup_spec (root : List String) (remove_ok : List String → Bool)
    (location : List String) (hv : is_valid_file_path location = true) :
    (local_delete root remove_ok none true location
        = Except.ok (cleanup_walk root remove_ok (root ++ location).dropLast))
  ∧ (∀ d ∈ cleanup_walk root remove_ok (root ++ location).dropLast,
      (∃ u, u ≠ [] ∧ d = root ++ u) ∧ root.length < d.length ∧ ¬ ∃ u, d ++ u = root)
  ∧ cleanup_walk root remove_ok (root ++ location).dropLast
      = (ancestor_chain ((root ++ location).dropLast)).takeWhile
          (fun d => decide (d ≠ root) && remove_ok d) := by
  have hlocne : location ≠ [] := by
    intro h
    rw [h] at hv
    simp [is_valid_file_path] at hv
  have hpath : path_to_filesystem location = Except.ok location := by
    unfold path_to_filesystem
    rw [if_pos hv]
  have hdrop : (root ++ location).dropLast = root ++ location.dropLast :=
    List.dropLast_append_of_ne_nil root hlocne
  refine ⟨?_, ?_, ?_⟩
  · simp [local_delete, hpath, Bind.bind, Except.bind]
  · intro d hd
    have hbelow : ∃ u, u ≠ [] ∧ d = root ++ u := by
      by_cases htd : location.dropLast = []
      · rw [hdrop, htd, List.append_nil, cleanup_walk_root_eq] at hd
        exact absurd hd (List.not_mem_nil d)
      · exact cleanup_walk_below root remove_ok ((root ++ location).dropLast).length
          ((root ++ location).dropLast) (Nat.le_refl _) location.dropLast htd
          (by rw [hdrop]) d hd
    obtain ⟨u, hu, hdu⟩ := hbelow
    have hlt : root.length < d.length := by
      rw [hdu, List.length_append]
      have : 0 < u.length := List.length_pos.mpr hu
      omega
    refine ⟨⟨u, hu, hdu⟩, hlt, ?_⟩
    rintro ⟨w, hw⟩
    have : d.length + w.length = root.length := by
      rw [← List.length_append, hw]
    omega
  · exact cleanup_walk_takeWhile root remove_ok ((root ++ location).dropLast).length
      ((root ++ location).dropLast) (Nat.le_refl _)

/-- C8 witness: deleting `r/a/b` under root `r` with all removals
succeeding removes exactly `r/a` and stops before the root. -/
theorem delete_cleanup_spec_witness :
    local_delete ["r"] (fun _ => true) none true ["a", "b"]
        = Except.ok (cleanup_walk ["r"] (fun _ => true) (["r"] ++ ["a", "b"]).dropLast)
      ∧ cleanup_walk ["r"] (fun _ => true) (["r"] ++ ["a", "b"]).dropLast = [["r", "a"]] :=
  ⟨(delete_cleanup_spec ["r"] (fun _ => true) ["a", "b"] (by decide)).1, by
    rw [show (["r"] ++ ["a", "b"]).dropLast = ["r", "a"] from rfl]
    rw [cleanup_walk]
    rw [if_pos (by decide), dif_neg (by decide)]
    rw [show (["r", "a"] : List String).dropLast = ["r"] from rfl]
    rw [cleanup_walk_root_eq]⟩

/-! ## Claim C5: staging-name rejection -/

theorem takeWhile_append_stop {α} (p : α → Bool) (x : List α) (y : α) (z : List α)
    (hx : ∀ c ∈ x, p c = true) (hy : p y = false) :
    (x ++ y :: z).takeWhile p = x ∧ (x ++ y :: z).dropWhile p = y :: z := by
  induction x with
  | nil =>
    constructor
    · simp [List.takeWhile_cons, hy]
    · simp [List.dropWhile_cons, hy]
  | cons a t ih =>
    have ha : p a = true := hx a (List.mem_cons_self a t)
    obtain ⟨h1, h2⟩ := ih (fun c hc => hx c (List.mem_cons_of_mem a hc))
    constructor
    · rw [List.cons_append, List.takeWhile_cons_of_pos ha, h1]
    · rw [List.cons_append, List.dropWhile_cons_of_pos ha, h2]

theorem dropWhile_hash (l : List Char) (hc : '#' ∈ l) :
    l.dropWhile (fun c => c ≠ '#') = '#' :: (l.dropWhile (fun c => c ≠ '#')).tail
      ∧ '#' ∉ l.takeWhile (fun c => c ≠ '#') := by
  induction l with
  | nil => cases hc
  | cons a t ih =>
    by_cases ha : a = '#'
    · subst ha
      constructor
      · rw [@List.dropWhile_cons_of_neg _ (fun c => decide (c ≠ '#')) '#' t (by simp)]
        rfl
      · rw [@List.takeWhile_cons_of_neg _ (fun c => decide (c ≠ '#')) '#' t (by simp)]
        exact List.not_mem_nil '#'
    · have hp : decide (a ≠ '#') = true := by simp [ha]
      have hct : '#' ∈ t := by
        rcases List.mem_cons.mp hc with heq | hmem
        · exact absurd heq.symm ha
        · exact hmem
      obtain ⟨h1, h2⟩ := ih hct
      constructor
      · rw [@List.dropWhile_cons_of_pos _ (fun c => decide (c ≠ '#')) a t hp]
        exact h1
      · rw [@List.takeWhile_cons_of_pos _ (fun c => decide (c ≠ '#')) a t hp]
        intro hmem
        rcases List.mem_cons.mp hmem with heq | hmem2
        · exact ha heq.symm
        · exact h2 hmem2

theorem is_valid_eq_false_iff (p : List String) (s : String) (h : p.getLast? = some s) :
    is_valid_file_path p = false ↔
      ∃ a b : List Char, s.toList = a ++ '#' :: b ∧ b ≠ []
        ∧ b.all (fun c => c.isDigit) = true ∧ '#' ∉ a := by
  by_cases hc : '#' ∈ s.toList
  · have hcb : s.toList.contains '#' = true := by simpa using hc
    have hsplit : split_once_hash s
        = some (String.mk (s.toList.takeWhile (fun c => c ≠ '#')),
            String.mk ((s.toList.dropWhile (fun c => c ≠ '#')).tail)) := by
      unfold split_once_hash
      rw [if_pos hcb]
    obtain ⟨hdw, htw⟩ := dropWhile_hash s.toList hc
    simp only [is_valid_file_path, h, hsplit]
    have htl : (String.mk ((s.toList.dropWhile (fun c => c ≠ '#')).tail)).toList
        = (s.toList.dropWhile (fun c => c ≠ '#')).tail := rfl
    have hemp_iff : (String.mk ((s.toList.dropWhile (fun c => c ≠ '#')).tail) = "")
        ↔ (s.toList.dropWhile (fun c => c ≠ '#')).tail = [] := by
      simp [String.ext_iff]
    constructor
    · intro hfalse
      by_cases hemp : String.mk ((s.toList.dropWhile (fun c => c ≠ '#')).tail) = ""
      · rw [if_pos hemp] at hfalse
        exact Bool.noConfusion hfalse
      · rw [if_neg hemp] at hfalse
        have hall : ((s.toList.dropWhile (fun c => c ≠ '#')).tail).all
            (fun c => c.isDigit) = true := by
          rw [htl] at hfalse
          simpa using hfalse
        refine ⟨s.toList.takeWhile (fun c => c ≠ '#'),
          (s.toList.dropWhile (fun c => c ≠ '#')).tail, ?_,
          fun hnil => hemp (hemp_iff.mpr hnil), hall, htw⟩
        conv_lhs => rw [← List.takeWhile_append_dropWhile
          (fun c => decide (c ≠ '#')) s.toList, hdw]
    · rintro ⟨a, b, hab, hb, hdig, hna⟩
      obtain ⟨ht, hd⟩ := takeWhile_append_stop (fun c => decide (c ≠ '#')) a '#' b
        (by
          intro c hcmem
          simp only [decide_eq_true_eq]
          intro heq
          exact hna (heq ▸ hcmem))
        (by simp)
      have hdrop : (s.toList.dropWhile (fun c => c ≠ '#')).tail = b := by
        rw [hab, hd]
        rfl
      have hbne : String.mk b ≠ "" := by
        intro heq
        apply hb
        have hdata : (String.mk b).data = ("" : String).data := by rw [heq]
        exact hdata
      rw [hdrop, if_neg hbne]
      simp [hdig]
  · have hcb : s.toList.contains '#' = false := by simpa using hc
    have hsplit : split_once_hash s = none := by
      unfold split_once_hash
      rw [if_neg (by rw [hcb]; simp)]
    simp only [is_valid_file_path, h, hsplit]
    constructor
    · intro hfalse
      exact Bool.noConfusion hfalse
    · rintro ⟨a, b, hab, -, -, -⟩
      exfalso
      apply hc
      rw [hab]
      exact List.mem_append_right a (List.mem_cons_self _ _)

/-- C5 counterexample: the final segment `a#b#1` matches the claimed regex
(pound sign followed only by digits at the end), yet the code accepts it:
`get` and `get_range` proceed past the path gate (failing with `NotFound`,
not `InvalidPath`, on an empty store), `put` succeeds, and a file of that
name on disk is visible to both the flat list and `list_with_delimiter`
rather than being ignored. -/
theorem staging_regex_counterexample :
    spec_staging_regex "a#b#1" = true
      ∧ is_valid_file_path ["a#b#1"] = true
      ∧ local_get_range (fun _ => FsEntry.missing) ["a#b#1"] 0 1
          = Except.error (ObjError.notFound ["a#b#1"])
      ∧ local_get (fun _ => FsEntry.missing) ["a#b#1"]
          = Except.error (ObjError.notFound ["a#b#1"])
      ∧ local_put (WriteOutcome.ok "etag") ["a#b#1"]
          = Except.ok { e_tag := some "etag", version := none }
      ∧ list_stream_locations [(["a#b#1"], true)] = [["a#b#1"]]
      ∧ list_with_delimiter_objects [(["a#b#1"], false)] = [["a#b#1"]] := by
  refine ⟨by decide, by decide, rfl, rfl, rfl, by decide, by decide⟩

/-- C5 amended: a location is rejected with `InvalidPath` from `put`,
`get` (`get_opts`, `get_range`, `get_ranges`) and `delete` — and files
with such names are the ones hidden from both the flat list and
`list_with_delimiter` — exactly when the part of its final segment after
the FIRST pound sign is a non-empty run of ASCII digits; every such
segment also matches the regex of the claim, but not conversely (`a#b#1`
matches the regex and is accepted; valid locations are never rejected
with `InvalidPath` by any of these operations). -/
theorem invalid_path_rule (p : List String) (s : String) (h : p.getLast? = some s) :
    (is_valid_file_path p = false ↔
      ∃ a b : List Char, s.toList = a ++ '#' :: b ∧ b ≠ []
        ∧ b.all (fun c => c.isDigit) = true ∧ '#' ∉ a)
  ∧ (is_valid_file_path p = false → spec_staging_regex s = true)
  ∧ (∀ w, is_valid_file_path p = false →
      local_put w p = Except.error (ObjError.invalidPath p))
  ∧ (∀ fs start stop, is_valid_file_path p = false →
      local_get_range fs p start stop = Except.error (ObjError.invalidPath p))
  ∧ (∀ root remove_ok rfe ac, is_valid_file_path p = false →
      local_delete root remove_ok rfe ac p = Except.error (ObjError.invalidPath p))
  ∧ (∀ w, is_valid_file_path p = true →
      local_put w p ≠ Except.error (ObjError.invalidPath p))
  ∧ (∀ entries, ∀ l ∈ list_stream_locations entries, is_valid_file_path l = true)
  ∧ (∀ fs, is_valid_file_path p = false →
      local_get fs p = Except.error (ObjError.invalidPath p))
  ∧ (∀ fs check_preconditions as_range, is_valid_file_path p = false →
      local_get_opts fs check_preconditions as_range p
        = Except.error (ObjError.invalidPath p))
  ∧ (∀ fs ranges, is_valid_file_path p = false →
      local_get_ranges fs p ranges = Except.error (ObjError.invalidPath p))
  ∧ (∀ entries, ∀ l ∈ list_with_delimiter_objects entries, is_valid_file_path l = true)
  ∧ (∀ fs, is_valid_file_path p = true →
      local_get fs p ≠ Except.error (ObjError.invalidPath p))
  ∧ (∀ fs start stop, is_valid_file_path p = true →
      local_get_range fs p start stop ≠ Except.error (ObjError.invalidPath p))
  ∧ (∀ root remove_ok rfe ac, is_valid_file_path p = true →
      local_delete root remove_ok rfe ac p ≠ Except.error (ObjError.invalidPath p)) := by
  refine ⟨is_valid_eq_false_iff p s h, ?_, ?_, ?_, ?_, ?_, ?_, ?_, ?_, ?_, ?_, ?_, ?_, ?_⟩
  · intro hfalse
    obtain ⟨a, b, hab, hb, hdig, hna⟩ := (is_valid_eq_false_iff p s h).mp hfalse
    have hrev : s.toList.reverse = b.reverse ++ '#' :: a.reverse := by
      rw [hab]
      simp
    obtain ⟨htw, hdw⟩ := takeWhile_append_stop (fun c => c.isDigit) b.reverse '#' a.reverse
      (by
        intro c hcm
        exact (List.all_eq_true.mp hdig) c (List.mem_reverse.mp hcm))
      (by decide)
    simp only [spec_staging_regex]
    rw [hrev, htw, List.drop_left]
    simp [List.isEmpty_iff, hb]
  · intro w hfalse
    simp [local_put, path_to_filesystem, hfalse, Bind.bind, Except.bind]
  · intro fs start stop hfalse
    simp [local_get_range, path_to_filesystem, hfalse, Bind.bind, Except.bind]
  · intro root remove_ok rfe ac hfalse
    simp [local_delete, path_to_filesystem, hfalse, Bind.bind, Except.bind]
  · intro w hv
    cases w <;> simp [local_put, path_to_filesystem, hv, Bind.bind, Except.bind]
  · intro entries l hl
    simp only [list_stream_locations, List.mem_filterMap] at hl
    obtain ⟨e, he, hcond⟩ := hl
    by_cases hb : (e.2 && is_valid_file_path e.1) = true
    · rw [if_pos hb] at hcond
      cases hcond
      simp only [Bool.and_eq_true] at hb
      exact hb.2
    · rw [if_neg hb] at hcond
      cases hcond
  · intro fs hfalse
    simp [local_get, local_get_opts, path_to_filesystem, hfalse, Bind.bind, Except.bind]
  · intro fs check_preconditions as_range hfalse
    simp [local_get_opts, path_to_filesystem, hfalse, Bind.bind, Except.bind]
  · intro fs ranges hfalse
    simp [local_get_ranges, path_to_filesystem, hfalse, Bind.bind, Except.bind]
  · intro entries l hl
    simp only [list_with_delimiter_objects, List.mem_filterMap] at hl
    obtain ⟨e, he, hcond⟩ := hl
    by_cases hskip : (!e.2 && !(is_valid_file_path e.1)) = true
    · rw [if_pos hskip] at hcond
      cases hcond
    · rw [if_neg hskip] at hcond
      by_cases hd : e.2 = true
      · rw [if_pos hd] at hcond
        cases hcond
      · rw [if_neg hd] at hcond
        cases hcond
        simp only [Bool.and_eq_true, Bool.not_eq_true'] at hskip
        by_cases hv : is_valid_file_path e.1 = true
        · exact hv
        · exact absurd ⟨Bool.eq_false_iff.mpr hd, Bool.eq_false_iff.mpr hv⟩ hskip
  · intro fs hv
    have hpath : path_to_filesystem p = Except.ok p := by
      unfold path_to_filesystem
      rw [if_pos hv]
    cases hfs : fs p <;>
      simp [local_get, local_get_opts, hpath, hfs, open_file, Bind.bind, Except.bind]
  · intro fs start stop hv
    have hpath : path_to_filesystem p = Except.ok p := by
      unfold path_to_filesystem
      rw [if_pos hv]
    cases hfs : fs p with
    | file contents =>
      simp only [local_get_range, hpath, hfs, open_file, Bind.bind, Except.bind]
      simp only [read_range]
      split
      · simp
      · split
        · simp
        · simp
    | dir =>
      simp [local_get_range, hpath, hfs, open_file, Bind.bind, Except.bind]
    | missing =>
      simp [local_get_range, hpath, hfs, open_file, Bind.bind, Except.bind]
  · intro root remove_ok rfe ac hv
    have hpath : path_to_filesystem p = Except.ok p := by
      unfold path_to_filesystem
      rw [if_pos hv]
    cases rfe with
    | none =>
      simp only [local_delete, hpath, Bind.bind, Except.bind]
      split <;> simp
    | some b =>
      cases b <;> simp [local_delete, hpath, Bind.bind, Except.bind]

/-- C5 amended witness: the segment `x#12` is rejected from `put` and
from `get` with `InvalidPath`, while the plain segment `data` is not
rejected. -/
theorem invalid_path_rule_witness :
    local_put WriteOutcome.ioError ["x#12"] = Except.error (ObjError.invalidPath ["x#12"])
      ∧ local_get (fun _ => FsEntry.missing) ["x#12"]
          = Except.error (ObjError.invalidPath ["x#12"])
      ∧ local_put WriteOutcome.ioError ["data"]
          ≠ Except.error (ObjError.invalidPath ["data"])
      ∧ local_get (fun _ => FsEntry.missing) ["data"]
          ≠ Except.error (ObjError.invalidPath ["data"]) :=
  ⟨(invalid_path_rule ["x#12"] "x#12" rfl).2.2.1 WriteOutcome.ioError (by decide),
   (invalid_path_rule ["x#12"] "x#12" rfl).2.2.2.2.2.2.2.1
     (fun _ => FsEntry.missing) (by decide),
   (invalid_path_rule ["data"] "data" rfl).2.2.2.2.2.1 WriteOutcome.ioError (by decide),
   (invalid_path_rule ["data"] "data" rfl).2.2.2.2.2.2.2.2.2.2.2.1
     (fun _ => FsEntry.missing) (by decide)⟩

/-! ## Claim C3: header canonicalization -/

theorem btree_keys_mem (l : List String) (x : String) : x ∈ btree_keys l ↔ x ∈ l := by
  unfold btree_keys
  rw [List.mem_dedup]
  exact (List.perm_insertionSort (fun a b => a ≤ b) l).mem_iff

theorem btree_keys_sorted (l : List String) :
    List.Pairwise (fun a b : String => a < b) (btree_keys l) := by
  have hs : List.Pairwise (fun a b : String => a ≤ b)
      (l.insertionSort (fun a b => a ≤ b)) :=
    List.sorted_insertionSort (fun a b => a ≤ b) l
  have hsd : List.Pairwise (fun a b : String => a ≤ b)
      ((l.insertionSort (fun a b => a ≤ b)).dedup) :=
    List.Pairwise.sublist (List.dedup_sublist _) hs
  have hnd : List.Pairwise (fun a b : String => a ≠ b)
      ((l.insertionSort (fun a b => a ≤ b)).dedup) :=
    List.nodup_dedup _
  exact (hsd.and hnd).imp (fun hab => lt_iff_le_and_ne.mpr hab)

/-- C3: over any header multimap (whose names arrive lowercased, as
`http::HeaderName` guarantees), `canonicalize_headers` emits the names
joined by `;` and one `name:values\x0a` line per name with values trimmed
and joined by `,` in insertion order; the banned triple never appears
among the emitted names; the names are in strictly increasing byte order;
every emitted name is the lowercasing of an input name; and every
non-banned input name is emitted. -/
theorem canonicalize_headers_spec (raw : List (String × String)) :
    (canonicalize_headers (mk_header_map raw)
        = (String.intercalate ";" (btree_keys (((mk_header_map raw).filter
              (fun kv => !(banned_headers.contains kv.1))).map (fun kv => kv.1))),
           String.join ((btree_keys (((mk_header_map raw).filter
              (fun kv => !(banned_headers.contains kv.1))).map (fun kv => kv.1))).map
             (fun n => n ++ ":" ++ String.intercalate ","
               ((header_values ((mk_header_map raw).filter
                 (fun kv => !(banned_headers.contains kv.1))) n).map (fun v => v.trim))
               ++ "\n"))))
  ∧ (∀ b ∈ banned_headers,
      b ∉ btree_keys (((mk_header_map raw).filter
        (fun kv => !(banned_headers.contains kv.1))).map (fun kv => kv.1)))
  ∧ List.Pairwise (fun a b : String => a < b)
      (btree_keys (((mk_header_map raw).filter
        (fun kv => !(banned_headers.contains kv.1))).map (fun kv => kv.1)))
  ∧ (∀ n ∈ btree_keys (((mk_header_map raw).filter
        (fun kv => !(banned_headers.contains kv.1))).map (fun kv => kv.1)),
      n ∈ raw.map (fun kv => ascii_lower kv.1))
  ∧ (∀ kv ∈ raw, banned_headers.contains (ascii_lower kv.1) = false →
      ascii_lower kv.1 ∈ btree_keys (((mk_header_map raw).filter
        (fun kv => !(banned_headers.contains kv.1))).map (fun kv => kv.1))) := by
  refine ⟨rfl, ?_, btree_keys_sorted _, ?_, ?_⟩
  · intro b hb hmem
    rw [btree_keys_mem] at hmem
    obtain ⟨kv, hkvmem, hfst⟩ := List.mem_map.mp hmem
    have hnb := (List.mem_filter.mp hkvmem).2
    rw [hfst] at hnb
    have : banned_headers.contains b = true := by
      simpa using hb
    rw [this] at hnb
    exact Bool.noConfusion hnb
  · intro n hn
    rw [btree_keys_mem] at hn
    obtain ⟨kv, hkvmem, hfst⟩ := List.mem_map.mp hn
    have hkv3 : kv ∈ mk_header_map raw := (List.mem_filter.mp hkvmem).1
    obtain ⟨r, hr, hr2⟩ := List.mem_map.mp hkv3
    refine List.mem_map.mpr ⟨r, hr, ?_⟩
    rw [← hfst, ← hr2]
  · intro kv hkv hnb
    rw [btree_keys_mem]
    refine List.mem_map.mpr ⟨(ascii_lower kv.1, kv.2), ?_, rfl⟩
    refine List.mem_filter.mpr ⟨List.mem_map.mpr ⟨kv, hkv, rfl⟩, ?_⟩
    simp only [Bool.not_eq_true']
    exact hnb

/-- C3 witness: a concrete multimap with a banned name, mixed case and
duplicate names: `authorization` is dropped from the emitted names and
the duplicate name `foo` occurs. -/
theorem canonicalize_headers_spec_witness :
    "authorization" ∉ btree_keys (((mk_header_map
        [("Authorization", "Bearer x"), ("Foo", " a "), ("foo", "b")]).filter
          (fun kv => !(banned_headers.contains kv.1))).map (fun kv => kv.1))
      ∧ "foo" ∈ btree_keys (((mk_header_map
        [("Authorization", "Bearer x"), ("Foo", " a "), ("foo", "b")]).filter
          (fun kv => !(banned_headers.contains kv.1))).map (fun kv => kv.1)) :=
  ⟨(canonicalize_headers_spec
      [("Authorization", "Bearer x"), ("Foo", " a "), ("foo", "b")]).2.1
        "authorization" (by decide),
   (canonicalize_headers_spec
      [("Authorization", "Bearer x"), ("Foo", " a "), ("foo", "b")]).2.2.2.2
        ("Foo", " a ") (by decide) (by decide)⟩

/-! ## Claim C1: payload-hash selection -/

theorem hex_encode_chars (bytes : List Nat) :
    ∀ c ∈ (hex_encode bytes).toList, c ∈ ("0123456789abcdef").toList := by
  have hchar : ∀ m : Nat, m < 16 → hexChar m ∈ ("0123456789abcdef").toList := by decide
  show ∀ c ∈ bytes.foldr
    (fun b acc => hexChar ((b / 16) % 16) :: hexChar (b % 16) :: acc) [], c ∈ _
  induction bytes with
  | nil =>
    intro c hc
    cases hc
  | cons b t ih =>
    intro c hc
    rcases List.mem_cons.mp hc with h1 | hc2
    · exact h1 ▸ hchar _ (Nat.mod_lt _ (by omega))
    · rcases List.mem_cons.mp hc2 with h2 | hc3
      · exact h2 ▸ hchar _ (Nat.mod_lt _ (by omega))
      · exact ih c hc3

/-- C1: `authorize` writes exactly the digest chosen by the five-way
priority into the `x-amz-content-sha256` header, and the same digest is
the one handed to `string_to_sign` as the canonical-request payload hash
(visible in the signature of the emitted `authorization` header): unsigned
payloads get the literal `UNSIGNED-PAYLOAD`; otherwise a supplied
precomputed digest is used in lowercase hex; otherwise an empty body gets
the constant hex SHA-256 of the empty string; otherwise materialized body
bytes are hashed; otherwise (streaming) the literal streaming marker. -/
theorem authorize_payload_hash (sha256 : List Nat → List Nat)
    (hmac : List Nat → List Nat → List Nat) (a : AwsAuthorizer) (req : HttpRequest)
    (pre : Option (List Nat)) :
    (a.sign_payload = false →
      payload_digest sha256 a.sign_payload pre req.body = UNSIGNED_PAYLOAD)
  ∧ (∀ dg, a.sign_payload = true → pre = some dg →
      payload_digest sha256 a.sign_payload pre req.body = hex_encode dg)
  ∧ (a.sign_payload = true → pre = none → req.body.is_empty = true →
      payload_digest sha256 a.sign_payload pre req.body = EMPTY_SHA256_HASH)
  ∧ (∀ bs, a.sign_payload = true → pre = none → req.body.is_empty = false →
      req.body.as_bytes = some bs →
      payload_digest sha256 a.sign_payload pre req.body = hex_digest sha256 bs)
  ∧ (a.sign_payload = true → pre = none → req.body.is_empty = false →
      req.body.as_bytes = none →
      payload_digest sha256 a.sign_payload pre req.body = STREAMING_PAYLOAD)
  ∧ EMPTY_SHA256_HASH
      = "e3b0c44298fc1c149afbf4c8996fb92427ae41e4649b934ca495991b7852b855"
  ∧ header_get (authorize sha256 hmac a req pre).headers "x-amz-content-sha256"
      = some (payload_digest sha256 a.sign_payload pre req.body)
  ∧ header_get (authorize sha256 hmac a req pre).headers "authorization"
      = some ("AWS4-HMAC-SHA256" ++ " Credential=" ++ a.credential.key_id ++ "/"
          ++ scope a ++ ", SignedHeaders="
          ++ (canonicalize_headers (authorize_headers a req
                (payload_digest sha256 a.sign_payload pre req.body))).1
          ++ ", Signature=" ++ credential_sign hmac a.credential
              (string_to_sign sha256 a (scope a) req.method req.path req.query
                (canonicalize_headers (authorize_headers a req
                  (payload_digest sha256 a.sign_payload pre req.body))).2
                (canonicalize_headers (authorize_headers a req
                  (payload_digest sha256 a.sign_payload pre req.body))).1
                (payload_digest sha256 a.sign_payload pre req.body))
              a.date_ymd a.region a.service) := by
  refine ⟨?_, ?_, ?_, ?_, ?_, rfl, ?_, ?_⟩
  · intro h
    simp [payload_digest, h]
  · intro dg h hp
    simp [payload_digest, h, hp]
  · intro h hp he
    simp [payload_digest, h, hp, he]
  · intro bs h hp he hb
    simp [payload_digest, h, hp, he, hb]
  · intro h hp he hb
    simp [payload_digest, h, hp, he, hb]
  · show header_get (header_insert (authorize_headers a req
        (payload_digest sha256 a.sign_payload pre req.body)) "authorization" _)
        "x-amz-content-sha256" = _
    rw [header_get_insert_other _ _ _ _ (by decide)]
    simp only [authorize_headers]
    by_cases hp : a.request_payer = true
    · rw [if_pos hp, header_get_insert_other _ _ _ _ (by decide),
        header_get_insert_self]
    · rw [if_neg hp, header_get_insert_self]
  · show header_get (header_insert (authorize_headers a req
        (payload_digest sha256 a.sign_payload pre req.body)) "authorization" _)
        "authorization" = _
    rw [header_get_insert_self]

/-- C1 witness: concrete requests hit each branch of the priority; with an
empty in-memory body and no precomputed digest the header carries the
constant hash of the empty string, and with a streaming body it carries
the streaming marker. -/
theorem authorize_payload_hash_witness :
    header_get (authorize (fun _ => []) (fun _ _ => [])
        ⟨⟨"k", "s", none⟩, "ec2", "r", "D", "DI", none, true, false⟩
        ⟨"GET", "h", "/", [], [], ⟨true, none⟩⟩ none).headers "x-amz-content-sha256"
      = some EMPTY_SHA256_HASH
  ∧ header_get (authorize (fun _ => []) (fun _ _ => [])
        ⟨⟨"k", "s", none⟩, "ec2", "r", "D", "DI", none, true, false⟩
        ⟨"GET", "h", "/", [], [], ⟨false, none⟩⟩ none).headers "x-amz-content-sha256"
      = some STREAMING_PAYLOAD := by
  constructor
  · have h := authorize_payload_hash (fun _ => []) (fun _ _ => [])
      ⟨⟨"k", "s", none⟩, "ec2", "r", "D", "DI", none, true, false⟩
      ⟨"GET", "h", "/", [], [], ⟨true, none⟩⟩ none
    rw [h.2.2.2.2.2.2.1, h.2.2.1 rfl rfl rfl]
  · have h := authorize_payload_hash (fun _ => []) (fun _ _ => [])
      ⟨⟨"k", "s", none⟩, "ec2", "r", "D", "DI", none, true, false⟩
      ⟨"GET", "h", "/", [], [], ⟨false, none⟩⟩ none
    rw [h.2.2.2.2.2.2.1, h.2.2.2.2.1 rfl rfl rfl rfl]

end Spec2Proof
